import Mathlib

/-!
Verification of the WBTC airdrop bot (src/wbtc_airdrop_bot.py).

The bot's cycle pipeline is embedded shallowly:
`get_token_holders` (lines 166-210), `filter_eligible_holders` (212-227),
`calculate_wbtc_distribution` (229-251), the transfer loop and cycle driver
`execute_airdrop_cycle` (314-405), and the cumulative statistics kept by the
scheduler `run_continuous_airdrop` (407-446).

Python `float` values are modelled as rationals (ℚ); a Python `dict` keyed by
wallet address is modelled as an association list in insertion order, which is
the order `dict` iteration follows.  Code paths that raise a Python exception
are modelled with `Except`.
-/

namespace WBTCAirdropBot

/-- Python exceptions that the modelled code paths can raise.
`zeroDivisionError` is what `token_amount / total_eligible_tokens` raises at
line 236 when the denominator is zero; `valueError` is what the unpacking
`holders, total_supply = self.get_token_holders(...)` at line 327 raises when
the right-hand side is the bare empty dict returned at line 178.
`zeroEligibleSupplyError` is modelled from the spec: §7 of the spec names a
dedicated `ZeroEligibleSupplyError` for a non-empty eligible set with zero
aggregate balance, but the code declares no such exception; the constructor
exists only so the spec sentence can be stated and compared with the code. -/
inductive PyErr where
  | zeroDivisionError
  | valueError
  | zeroEligibleSupplyError
  deriving DecidableEq, Repr

/-- One raw token-account record as consumed by the scan loop at lines
186-205: either it parses to an owner and an amount, or looking up its
fields raises `KeyError`/`TypeError`/`ValueError` and the record is skipped. -/
inductive RawAccount where
  | parsed (owner : String) (amount : ℚ)
  | malformed
  deriving DecidableEq, Repr

/-- Python dict update used at lines 196-199: `holders[owner] += token_amount`
when the key is present (value updated in place, position kept), otherwise
`holders[owner] = token_amount` (new key appended in insertion order). -/
def dictAdd : List (String × ℚ) → String → ℚ → List (String × ℚ)
  | [], owner, amt => [(owner, amt)]
  | (w, b) :: rest, owner, amt =>
    if w = owner then (w, b + amt) :: rest else (w, b) :: dictAdd rest owner amt

/-- The aggregation loop of `get_token_holders` (lines 186-205): malformed
records are skipped, zero-amount records are skipped by the `continue` at
line 193, every other record adds its amount to its owner's balance and to
the running `total_supply`. -/
def aggregate_holders : List RawAccount → List (String × ℚ) → ℚ → List (String × ℚ) × ℚ
  | [], holders, total => (holders, total)
  | .malformed :: rest, holders, total => aggregate_holders rest holders total
  | .parsed owner amt :: rest, holders, total =>
    if amt = 0 then aggregate_holders rest holders total
    else aggregate_holders rest (dictAdd holders owner amt) (total + amt)

/-- Successful-scan body of `get_token_holders` (lines 180-210): aggregate the
raw records starting from an empty dict and zero total. -/
def get_token_holders (accounts : List RawAccount) : List (String × ℚ) × ℚ :=
  aggregate_holders accounts [] 0

/-- What the RPC layer hands `get_token_holders`: either `make_rpc_request`
returned `None` or a result without accounts (line 176), or a list of raw
account records. -/
inductive ScanOutcome where
  | rpcFailed
  | response (accounts : List RawAccount)

/-- The value `get_token_holders` returns to its caller.  The failure path at
line 178 returns the bare empty dict `{}`, while the success path at line 210
returns the pair `(holders, total_supply)` — two different shapes. -/
inductive ScanReturn where
  | bareEmptyDict
  | pair (holders : List (String × ℚ)) (total_supply : ℚ)
  deriving DecidableEq, Repr

/-- `get_token_holders` seen from its caller, covering both return shapes. -/
def scan_token_holders : ScanOutcome → ScanReturn
  | .rpcFailed => .bareEmptyDict
  | .response accounts => .pair (get_token_holders accounts).1 (get_token_holders accounts).2

/-- The configuration fields of `AirdropConfig` that the cycle pipeline
reads (lines 47-58). -/
structure AirdropConfig where
  total_wbtc_per_cycle : ℚ
  min_token_holdings : ℚ
  max_token_holdings : ℚ
  deriving DecidableEq, Repr

/-- `filter_eligible_holders` (lines 212-218): keep the holders whose balance
satisfies `min_token_holdings <= amount <= max_token_holdings`. -/
def filter_eligible_holders (cfg : AirdropConfig) (holders : List (String × ℚ)) :
    List (String × ℚ) :=
  holders.filter fun p =>
    decide (cfg.min_token_holdings ≤ p.2 ∧ p.2 ≤ cfg.max_token_holdings)

/-- The `excluded_small` count at line 220: holders strictly below the
minimum. -/
def excluded_small (cfg : AirdropConfig) (holders : List (String × ℚ)) : ℕ :=
  holders.countP fun p => decide (p.2 < cfg.min_token_holdings)

/-- The `excluded_large` count at line 221: holders strictly above the
maximum. -/
def excluded_large (cfg : AirdropConfig) (holders : List (String × ℚ)) : ℕ :=
  holders.countP fun p => decide (p.2 > cfg.max_token_holdings)

/-- One entry of the distribution list built at lines 241-246. -/
structure DistributionEntry where
  wallet : String
  token_amount : ℚ
  percentage : ℚ
  wbtc_amount : ℚ
  deriving DecidableEq, Repr

/-- The order used by `distribution.sort(key=lambda x: x[,token_amount,],
reverse=True)` at line 249: `a` may precede `b` when `a.token_amount ≥
b.token_amount`.  Python `list.sort` is stable also with `reverse=True`. -/
def entryGE (a b : DistributionEntry) : Prop :=
  b.token_amount ≤ a.token_amount

instance : DecidableRel entryGE := fun a b =>
  inferInstanceAs (Decidable (b.token_amount ≤ a.token_amount))

instance : IsTotal DistributionEntry entryGE :=
  ⟨fun a b => le_total b.token_amount a.token_amount⟩

instance : IsTrans DistributionEntry entryGE :=
  ⟨fun _ _ _ h1 h2 => le_trans h2 h1⟩

/-- The loop body of `calculate_wbtc_distribution` (lines 234-246), before the
sort: one entry per eligible holder, in dict (encounter) order, with
`percentage = token_amount / total_eligible_tokens * 100` and
`wbtc_amount = token_amount / total_eligible_tokens * total_wbtc_per_cycle`. -/
def distribution_entries (budget : ℚ) (eligible : List (String × ℚ)) :
    List DistributionEntry :=
  let total := (eligible.map Prod.snd).sum
  eligible.map fun p =>
    { wallet := p.1
      token_amount := p.2
      percentage := p.2 / total * 100
      wbtc_amount := p.2 / total * budget }

/-- `calculate_wbtc_distribution` (lines 229-251).  The function computes
`total_eligible_tokens = sum(eligible_holders.values())` and divides by it for
every holder; there is no guard, so when the sum is zero and the mapping is
non-empty the first division raises `ZeroDivisionError`.  (With an empty
mapping the loop body never runs, so nothing is raised and the sorted empty
list is returned.)  Otherwise the entry list is stable-sorted descending by
`token_amount`; `List.insertionSort` with `entryGE` realises exactly that
stable descending order. -/
def calculate_wbtc_distribution (budget : ℚ) (eligible : List (String × ℚ)) :
    Except PyErr (List DistributionEntry) :=
  if (eligible.map Prod.snd).sum = 0 ∧ eligible ≠ [] then
    .error .zeroDivisionError
  else
    .ok (List.insertionSort entryGE (distribution_entries budget eligible))

/-- The transfer loop of `execute_airdrop_cycle` (lines 359-380): entries are
attempted strictly in order; `outcomes i` is what the transfer capability
`send_wbtc_airdrop` returns for the `i`-th attempt.  On success
`successful_sends` is incremented and `wbtc_amount` added to
`total_wbtc_sent`; on failure `failed_sends` is incremented and the loop
continues with the next entry. -/
def execute_transfers (outcomes : ℕ → Bool) :
    List DistributionEntry → ℕ → ℕ × ℕ × ℚ → ℕ × ℕ × ℚ
  | [], _, acc => acc
  | e :: rest, i, (s, f, sent) =>
    if outcomes i then
      execute_transfers outcomes rest (i + 1) (s + 1, f, sent + e.wbtc_amount)
    else
      execute_transfers outcomes rest (i + 1) (s, f + 1, sent)

/-- Why a cycle reported failure: the two dedicated branches at lines 331 and
339 return their own error strings, while any exception that escapes a
pipeline stage is caught by the generic handler at lines 403-405 and reported
with the exception's own message. -/
inductive CycleError where
  | noTokenHoldersFound
  | noEligibleHoldersFound
  | uncaught (e : PyErr)
  deriving DecidableEq, Repr

/-- The dict returned by `execute_airdrop_cycle`.  The failure dicts at lines
331, 339 and 405 carry only `success` and `error`; the absent count keys are
modelled as zero attempts, which is what actually happened on those paths. -/
structure CycleResult where
  success : Bool
  error : Option CycleError
  successful : ℕ
  failed : ℕ
  total_wbtc_sent : ℚ
  deriving DecidableEq, Repr

/-- `execute_airdrop_cycle` (lines 314-405) for one cycle, given the value the
holder scan produced and the per-attempt transfer outcomes.  Unpacking the
bare empty dict raises `ValueError`, which the generic handler converts into a
failure record; empty holder and eligible mappings short-circuit at lines
329-339; a `ZeroDivisionError` escaping the calculator is likewise caught by
the generic handler; once the transfer loop is reached the cycle always
returns `success := true` (line 395), whatever the individual outcomes. -/
def execute_airdrop_cycle (cfg : AirdropConfig) (scanned : ScanReturn)
    (outcomes : ℕ → Bool) : CycleResult :=
  match scanned with
  | .bareEmptyDict =>
    { success := false, error := some (.uncaught .valueError)
      successful := 0, failed := 0, total_wbtc_sent := 0 }
  | .pair holders _total =>
    if holders = [] then
      { success := false, error := some .noTokenHoldersFound
        successful := 0, failed := 0, total_wbtc_sent := 0 }
    else
      let eligible := filter_eligible_holders cfg holders
      if eligible = [] then
        { success := false, error := some .noEligibleHoldersFound
          successful := 0, failed := 0, total_wbtc_sent := 0 }
      else
        match calculate_wbtc_distribution cfg.total_wbtc_per_cycle eligible with
        | .error e =>
          { success := false, error := some (.uncaught e)
            successful := 0, failed := 0, total_wbtc_sent := 0 }
        | .ok dist =>
          let r := execute_transfers outcomes dist 0 (0, 0, 0)
          { success := true, error := none
            successful := r.1, failed := r.2.1, total_wbtc_sent := r.2.2 }

/-- The scheduler statistics of `WBTCAirdropBot` read by the final summary
(lines 71-73, 317, 392, 443-446): `cycle_count` and
`total_wbtc_distributed`. -/
structure BotState where
  cycle_count : ℕ
  total_wbtc_distributed : ℚ
  deriving DecidableEq, Repr

/-- The state change of one completed cycle: `self.cycle_count += 1` at line
317 and `self.total_wbtc_distributed += total_wbtc_sent` at line 392. -/
def record_cycle (st : BotState) (sent : ℚ) : BotState :=
  { cycle_count := st.cycle_count + 1
    total_wbtc_distributed := st.total_wbtc_distributed + sent }

/-- The scheduler state after the completed cycles whose `total_wbtc_sent`
values are `sents`, starting from the constructor state of lines 72-73. -/
def run_cycles (sents : List ℚ) : BotState :=
  sents.foldl record_cycle { cycle_count := 0, total_wbtc_distributed := 0 }

/-- The average reported by the final summary at line 446:
`total_wbtc_distributed / max(cycle_count, 1)`. -/
def average_wbtc_per_cycle (st : BotState) : ℚ :=
  st.total_wbtc_distributed / ((max st.cycle_count 1 : ℕ) : ℚ)

/-- Observable balance of one wallet in an aggregated holder dict: the sum of
the values stored under that wallet key (the dict keeps keys unique, so this
is the stored value, or zero when the wallet is absent). -/
def balanceOf (holders : List (String × ℚ)) (w : String) : ℚ :=
  ((holders.filter fun p => decide (p.1 = w)).map Prod.snd).sum

/-- What one raw record should contribute to wallet `w` according to the
spec: its amount when it parses to owner `w` with a non-zero amount, and
nothing otherwise. -/
def contribution (w : String) : RawAccount → ℚ
  | .parsed owner amt => if owner = w ∧ amt ≠ 0 then amt else 0
  | .malformed => 0

/-- Concrete scenario of §8 of the spec: three holders, bounds
`[1000, 10000000]`, budget `0.2`. -/
def scenario_config : AirdropConfig :=
  { total_wbtc_per_cycle := 1/5
    min_token_holdings := 1000
    max_token_holdings := 10000000 }

/-- Holder mapping of the concrete scenario. -/
def scenario_holders : List (String × ℚ) :=
  [("A", 1000), ("B", 3000), ("C", 500)]

/-- Transfer outcomes of the partial-failure scenario: the first attempt (B,
the larger holder, sorted first) fails, the second (A) succeeds. -/
def scenario_outcomes : ℕ → Bool := fun i => i == 1

/-! ## Helper lemmas -/

theorem run_cycles_foldl (sents : List ℚ) : ∀ st : BotState,
    sents.foldl record_cycle st =
      { cycle_count := st.cycle_count + sents.length
        total_wbtc_distributed := st.total_wbtc_distributed + sents.sum } := by
  induction sents with
  | nil => intro st; simp
  | cons s rest ih =>
    intro st
    simp only [List.foldl_cons, ih, record_cycle, List.length_cons, List.sum_cons,
      BotState.mk.injEq]
    exact ⟨by omega, by ring⟩

/-- C9: after completed cycles with sent amounts `s1..sN` the scheduler holds
`cycle_count = N` and `total_wbtc_distributed = Σ si`; the average the final
summary prints is `total_wbtc_distributed / max(cycle_count, 1)`, which for
`N ≥ 1` equals `Σ si / N`. -/
theorem scheduler_cumulative_statistics (sents : List ℚ) :
    (run_cycles sents).total_wbtc_distributed = sents.sum ∧
    (run_cycles sents).cycle_count = sents.length ∧
    average_wbtc_per_cycle (run_cycles sents) =
      (run_cycles sents).total_wbtc_distributed /
        ((max (run_cycles sents).cycle_count 1 : ℕ) : ℚ) ∧
    (sents ≠ [] →
      average_wbtc_per_cycle (run_cycles sents) = sents.sum / (sents.length : ℚ)) := by
  have h : run_cycles sents =
      { cycle_count := sents.length, total_wbtc_distributed := sents.sum } := by
    simpa [run_cycles] using run_cycles_foldl sents
      { cycle_count := 0, total_wbtc_distributed := 0 }
  refine ⟨by simp [h], by simp [h], rfl, fun hne => ?_⟩
  have hlen : 1 ≤ sents.length := List.length_pos.mpr hne
  simp [average_wbtc_per_cycle, h, Nat.max_eq_left hlen]

/-- C10: on RPC failure `get_token_holders` returns the bare empty dict while
the success path returns the `(holders, total_supply)` pair; unpacking the
bare dict raises `ValueError`, so the cycle fails through the generic
exception handler — not through the dedicated no-token-holders branch — and
attempts no transfer. -/
theorem scan_failure_generic_handler :
    (∀ accounts : List RawAccount,
      scan_token_holders (.response accounts) =
        .pair (get_token_holders accounts).1 (get_token_holders accounts).2) ∧
    scan_token_holders .rpcFailed = .bareEmptyDict ∧
    (∀ (cfg : AirdropConfig) (outcomes : ℕ → Bool),
      execute_airdrop_cycle cfg (scan_token_holders .rpcFailed) outcomes =
        { success := false, error := some (.uncaught .valueError)
          successful := 0, failed := 0, total_wbtc_sent := 0 }) ∧
    (CycleError.uncaught .valueError ≠ CycleError.noTokenHoldersFound) := by
  refine ⟨fun accounts => rfl, rfl, fun cfg outcomes => rfl, by simp⟩

/-- C4: whenever filtering leaves no eligible holder — in particular whenever
the holder mapping itself is empty — the cycle reports failure with zero
successful and zero failed sends and nothing sent. -/
theorem empty_eligible_cycle_failure (cfg : AirdropConfig)
    (holders : List (String × ℚ)) (t : ℚ) (outcomes : ℕ → Bool)
    (hempty : filter_eligible_holders cfg holders = []) :
    (execute_airdrop_cycle cfg (.pair holders t) outcomes).success = false ∧
    (execute_airdrop_cycle cfg (.pair holders t) outcomes).successful = 0 ∧
    (execute_airdrop_cycle cfg (.pair holders t) outcomes).failed = 0 ∧
    (execute_airdrop_cycle cfg (.pair holders t) outcomes).total_wbtc_sent = 0 := by
  by_cases hh : holders = [] <;>
    simp [execute_airdrop_cycle, hh, hempty]

/-- Witness for `empty_eligible_cycle_failure`: the scenario bounds with an
empty holder mapping. -/
theorem empty_eligible_cycle_failure_witness :
    (execute_airdrop_cycle scenario_config (.pair [] 0) scenario_outcomes).success = false ∧
    (execute_airdrop_cycle scenario_config (.pair [] 0) scenario_outcomes).successful = 0 ∧
    (execute_airdrop_cycle scenario_config (.pair [] 0) scenario_outcomes).failed = 0 ∧
    (execute_airdrop_cycle scenario_config (.pair [] 0) scenario_outcomes).total_wbtc_sent = 0 :=
  empty_eligible_cycle_failure scenario_config [] 0 scenario_outcomes rfl

/-- C3: a cycle that reaches the transfer-execution stage always reports
overall success, whatever the per-recipient outcomes; in the concrete
partial-failure scenario (allocations 0.15 to B and 0.05 to A, B failing and
A succeeding) the result is one successful send, one failed send, 0.05 sent
in total, and overall success — the loop continued past the failed entry. -/
theorem execution_stage_reports_success :
    (∀ (cfg : AirdropConfig) (holders : List (String × ℚ)) (t : ℚ)
        (outcomes : ℕ → Bool),
      holders ≠ [] →
      filter_eligible_holders cfg holders ≠ [] →
      ((filter_eligible_holders cfg holders).map Prod.snd).sum ≠ 0 →
      (execute_airdrop_cycle cfg (.pair holders t) outcomes).success = true) ∧
    execute_airdrop_cycle scenario_config (.pair scenario_holders 4500) scenario_outcomes =
      { success := true, error := none
        successful := 1, failed := 1, total_wbtc_sent := 1/20 } := by
  constructor
  · intro cfg holders t outcomes hh he hsum
    have hcalc : calculate_wbtc_distribution cfg.total_wbtc_per_cycle
        (filter_eligible_holders cfg holders) =
        .ok (List.insertionSort entryGE (distribution_entries cfg.total_wbtc_per_cycle
          (filter_eligible_holders cfg holders))) := by
      simp [calculate_wbtc_distribution, hsum]
    simp [execute_airdrop_cycle, hh, he, hcalc]
  · norm_num [execute_airdrop_cycle, scenario_config, scenario_holders, scenario_outcomes,
      filter_eligible_holders, calculate_wbtc_distribution, distribution_entries,
      List.insertionSort, List.orderedInsert, entryGE, execute_transfers]
    simp

/-- C1 counterexample: for the non-empty eligible mapping `{A: 0}` with zero
aggregate balance, `calculate_wbtc_distribution` does perform the division by
zero — it raises Python's own `ZeroDivisionError` — and does not fail with the
`ZeroEligibleSupplyError` the spec names (the code declares no such guard). -/
theorem zero_supply_counterexample :
    calculate_wbtc_distribution 1 [("A", 0)] = .error .zeroDivisionError ∧
    calculate_wbtc_distribution 1 [("A", 0)] ≠ .error .zeroEligibleSupplyError := by
  constructor
  · simp [calculate_wbtc_distribution]
  · simp [calculate_wbtc_distribution]

/-- C1 amended: for every non-empty eligible mapping with zero aggregate
balance the distribution calculation raises `ZeroDivisionError` (there is no
dedicated guard), and the cycle's generic exception handler turns it into a
cycle failure with no transfer attempted. -/
theorem zero_supply_division_error (budget : ℚ) (eligible : List (String × ℚ))
    (hne : eligible ≠ []) (hzero : (eligible.map Prod.snd).sum = 0) :
    calculate_wbtc_distribution budget eligible = .error .zeroDivisionError ∧
    ∀ (cfg : AirdropConfig) (holders : List (String × ℚ)) (t : ℚ)
        (outcomes : ℕ → Bool),
      holders ≠ [] →
      filter_eligible_holders cfg holders = eligible →
      execute_airdrop_cycle cfg (.pair holders t) outcomes =
        { success := false, error := some (.uncaught .zeroDivisionError)
          successful := 0, failed := 0, total_wbtc_sent := 0 } := by
  have hcalc : ∀ b : ℚ, calculate_wbtc_distribution b eligible = .error .zeroDivisionError := by
    intro b
    simp [calculate_wbtc_distribution, hzero, hne]
  refine ⟨hcalc budget, fun cfg holders t outcomes hh hfil => ?_⟩
  have he : filter_eligible_holders cfg holders ≠ [] := by
    rw [hfil]; exact hne
  simp [execute_airdrop_cycle, hh, he, hfil, hne, hcalc cfg.total_wbtc_per_cycle]

/-- Witness for `zero_supply_division_error` at the eligible mapping `{A: 0}`
(reachable when `min_token_holdings ≤ 0`). -/
theorem zero_supply_division_error_witness :
    calculate_wbtc_distribution 1 [("A", 0)] = .error .zeroDivisionError ∧
    ∀ (cfg : AirdropConfig) (holders : List (String × ℚ)) (t : ℚ)
        (outcomes : ℕ → Bool),
      holders ≠ [] →
      filter_eligible_holders cfg holders = [("A", 0)] →
      execute_airdrop_cycle cfg (.pair holders t) outcomes =
        { success := false, error := some (.uncaught .zeroDivisionError)
          successful := 0, failed := 0, total_wbtc_sent := 0 } :=
  zero_supply_division_error 1 [("A", 0)] (by simp) (by simp)

/-- C6: with `min ≤ max`, a holder entry survives the filter exactly when its
balance lies inclusively between the bounds, and the below-minimum and
above-maximum exclusion counts partition the complement of the eligible set:
they sum with the eligible count to the total holder count. -/
theorem filter_eligibility_partition (cfg : AirdropConfig)
    (holders : List (String × ℚ))
    (hminmax : cfg.min_token_holdings ≤ cfg.max_token_holdings) :
    (∀ (w : String) (b : ℚ),
      (w, b) ∈ filter_eligible_holders cfg holders ↔
        (w, b) ∈ holders ∧ cfg.min_token_holdings ≤ b ∧ b ≤ cfg.max_token_holdings) ∧
    excluded_small cfg holders + excluded_large cfg holders +
      (filter_eligible_holders cfg holders).length = holders.length := by
  constructor
  · intro w b
    simp [filter_eligible_holders, List.mem_filter]
  · induction holders with
    | nil => rfl
    | cons p rest ih =>
      by_cases h1 : p.2 < cfg.min_token_holdings
      · have h2 : ¬ p.2 > cfg.max_token_holdings := by
          simp only [gt_iff_lt, not_lt]
          exact le_of_lt (lt_of_lt_of_le h1 hminmax)
        have h3 : ¬ (cfg.min_token_holdings ≤ p.2 ∧ p.2 ≤ cfg.max_token_holdings) := by
          intro hc
          exact absurd hc.1 (not_le.mpr h1)
        simp [filter_eligible_holders, excluded_small, excluded_large,
          List.countP_cons, List.filter_cons, h1, h2, h3] at ih ⊢
        omega
      · by_cases h2 : p.2 > cfg.max_token_holdings
        · have h3 : ¬ (cfg.min_token_holdings ≤ p.2 ∧ p.2 ≤ cfg.max_token_holdings) := by
            intro hc
            exact absurd hc.2 (not_le.mpr h2)
          simp [filter_eligible_holders, excluded_small, excluded_large,
            List.countP_cons, List.filter_cons, h1, h2, h3] at ih ⊢
          omega
        · have h3 : cfg.min_token_holdings ≤ p.2 ∧ p.2 ≤ cfg.max_token_holdings :=
            ⟨not_lt.mp h1, not_lt.mp h2⟩
          simp [filter_eligible_holders, excluded_small, excluded_large,
            List.countP_cons, List.filter_cons, h1, h2, h3] at ih ⊢
          omega

/-- Witness for `filter_eligibility_partition` at the concrete scenario:
eligible `{A, B}`, one holder (C) excluded below the minimum, none above. -/
theorem filter_eligibility_partition_witness :
    (∀ (w : String) (b : ℚ),
      (w, b) ∈ filter_eligible_holders scenario_config scenario_holders ↔
        (w, b) ∈ scenario_holders ∧
          scenario_config.min_token_holdings ≤ b ∧
          b ≤ scenario_config.max_token_holdings) ∧
    excluded_small scenario_config scenario_holders +
      excluded_large scenario_config scenario_holders +
      (filter_eligible_holders scenario_config scenario_holders).length =
      scenario_holders.length :=
  filter_eligibility_partition scenario_config scenario_holders (by norm_num [scenario_config])

theorem calculate_eq_ok (budget : ℚ) (eligible : List (String × ℚ))
    (h : (eligible.map Prod.snd).sum ≠ 0) :
    calculate_wbtc_distribution budget eligible =
      .ok (List.insertionSort entryGE (distribution_entries budget eligible)) := by
  simp [calculate_wbtc_distribution, h]

theorem calculate_ok_inv (budget : ℚ) (eligible : List (String × ℚ))
    (dist : List DistributionEntry)
    (hcalc : calculate_wbtc_distribution budget eligible = .ok dist) :
    dist = List.insertionSort entryGE (distribution_entries budget eligible) := by
  by_cases hc : (eligible.map Prod.snd).sum = 0 ∧ eligible ≠ []
  · simp [calculate_wbtc_distribution, hc] at hcalc
  · simp [calculate_wbtc_distribution, hc] at hcalc
    exact hcalc.symm

theorem sum_map_div_mul (eligible : List (String × ℚ)) (c : ℚ)
    (hT : (eligible.map Prod.snd).sum ≠ 0) :
    (eligible.map fun p => p.2 / (eligible.map Prod.snd).sum * c).sum = c := by
  have h1 : (eligible.map fun p => p.2 / (eligible.map Prod.snd).sum * c) =
      (eligible.map fun p => p.2 * (c / (eligible.map Prod.snd).sum)) := by
    simp only [div_mul_eq_mul_div, mul_div_assoc]
  rw [h1]
  have h2 : ((eligible.map fun p => p.2 * (c / (eligible.map Prod.snd).sum)).sum) =
      ((eligible.map fun p => p.2).sum) * (c / (eligible.map Prod.snd).sum) :=
    List.sum_map_mul_right eligible (fun p => p.2) _
  rw [h2]
  show (eligible.map Prod.snd).sum * (c / (eligible.map Prod.snd).sum) = c
  rw [mul_comm]
  exact div_mul_cancel₀ c hT

/-- C2: with a positive aggregate eligible balance, every entry of the
distribution carries `percentage = token_amount / total * 100` and
`wbtc_amount = token_amount / total * budget`, the allocated amounts sum
exactly to the budget, and the percentages sum exactly to 100 (the bot's
float arithmetic is idealised as exact rational arithmetic, where the spec's
1e-9 tolerance degenerates to equality). -/
theorem distribution_proportional_sums (budget : ℚ) (eligible : List (String × ℚ))
    (dist : List DistributionEntry)
    (htotal : 0 < (eligible.map Prod.snd).sum)
    (hcalc : calculate_wbtc_distribution budget eligible = .ok dist) :
    (∀ e ∈ dist,
      e.percentage = e.token_amount / (eligible.map Prod.snd).sum * 100 ∧
      e.wbtc_amount = e.token_amount / (eligible.map Prod.snd).sum * budget) ∧
    (dist.map DistributionEntry.wbtc_amount).sum = budget ∧
    (dist.map DistributionEntry.percentage).sum = 100 := by
  have hT0 : (eligible.map Prod.snd).sum ≠ 0 := ne_of_gt htotal
  have hd := calculate_ok_inv budget eligible dist hcalc
  subst hd
  refine ⟨?_, ?_, ?_⟩
  · intro e he
    have he2 : e ∈ distribution_entries budget eligible :=
      (List.mem_insertionSort entryGE).mp he
    simp only [distribution_entries, List.mem_map] at he2
    obtain ⟨p, hp, rfl⟩ := he2
    exact ⟨rfl, rfl⟩
  · have hperm := (List.perm_insertionSort entryGE
      (distribution_entries budget eligible)).map DistributionEntry.wbtc_amount
    rw [hperm.sum_eq]
    simp only [distribution_entries, List.map_map]
    exact sum_map_div_mul eligible budget hT0
  · have hperm := (List.perm_insertionSort entryGE
      (distribution_entries budget eligible)).map DistributionEntry.percentage
    rw [hperm.sum_eq]
    simp only [distribution_entries, List.map_map]
    exact sum_map_div_mul eligible 100 hT0

/-- Witness for `distribution_proportional_sums`: the concrete scenario of §8
(eligible `{A: 1000, B: 3000}`, budget `0.2`). -/
theorem distribution_proportional_sums_witness :
    (∀ e ∈ ([⟨"B", 3000, 75, 3/20⟩, ⟨"A", 1000, 25, 1/20⟩] : List DistributionEntry),
      e.percentage = e.token_amount /
        (([("A", 1000), ("B", 3000)] : List (String × ℚ)).map Prod.snd).sum * 100 ∧
      e.wbtc_amount = e.token_amount /
        (([("A", 1000), ("B", 3000)] : List (String × ℚ)).map Prod.snd).sum * (1/5)) ∧
    (([⟨"B", 3000, 75, 3/20⟩, ⟨"A", 1000, 25, 1/20⟩] : List DistributionEntry).map
        DistributionEntry.wbtc_amount).sum = 1/5 ∧
    (([⟨"B", 3000, 75, 3/20⟩, ⟨"A", 1000, 25, 1/20⟩] : List DistributionEntry).map
        DistributionEntry.percentage).sum = 100 :=
  distribution_proportional_sums (1/5) [("A", 1000), ("B", 3000)]
    [⟨"B", 3000, 75, 3/20⟩, ⟨"A", 1000, 25, 1/20⟩]
    (by norm_num)
    (by norm_num [calculate_wbtc_distribution, distribution_entries,
      List.insertionSort, List.orderedInsert, entryGE])

theorem insertionSort_filter_key (l : List DistributionEntry) (q : ℚ) :
    (List.insertionSort entryGE l).filter (fun e => decide (e.token_amount = q)) =
      l.filter (fun e => decide (e.token_amount = q)) := by
  have hmemq : ∀ e ∈ l.filter (fun e => decide (e.token_amount = q)), e.token_amount = q :=
    fun e he => of_decide_eq_true (List.mem_filter.mp he).2
  have hpair : (l.filter (fun e => decide (e.token_amount = q))).Pairwise entryGE := by
    apply List.pairwise_of_forall_mem_list
    intro a ha b hb
    show b.token_amount ≤ a.token_amount
    rw [hmemq a ha, hmemq b hb]
  have hsub : (l.filter (fun e => decide (e.token_amount = q))).Sublist
      (List.insertionSort entryGE l) :=
    List.sublist_insertionSort hpair (List.filter_sublist l)
  have h5 : (l.filter (fun e => decide (e.token_amount = q))).filter
      (fun e => decide (e.token_amount = q)) =
      l.filter (fun e => decide (e.token_amount = q)) :=
    List.filter_eq_self.mpr (fun e he => (List.mem_filter.mp he).2)
  have hsub2 : (l.filter (fun e => decide (e.token_amount = q))).Sublist
      ((List.insertionSort entryGE l).filter (fun e => decide (e.token_amount = q))) := by
    have h6 := List.Sublist.filter (fun e => decide (e.token_amount = q)) hsub
    rwa [h5] at h6
  have hlen : ((List.insertionSort entryGE l).filter
      (fun e => decide (e.token_amount = q))).length =
      (l.filter (fun e => decide (e.token_amount = q))).length :=
    (List.Perm.filter _ (List.perm_insertionSort entryGE l)).length_eq
  exact (hsub2.eq_of_length hlen.symm).symm

/-- C8: the distribution list is sorted descending by `token_amount`
(`entryGE` is exactly that order), and for every amount value the entries
carrying it appear in the same relative order as in the pre-sort entry list
built in dict-encounter order — Python list.sort is stable. -/
theorem distribution_sorted_descending_stable (budget : ℚ)
    (eligible : List (String × ℚ)) (dist : List DistributionEntry)
    (hcalc : calculate_wbtc_distribution budget eligible = .ok dist) :
    List.Sorted entryGE dist ∧
    ∀ q : ℚ,
      dist.filter (fun e => decide (e.token_amount = q)) =
        (distribution_entries budget eligible).filter
          (fun e => decide (e.token_amount = q)) := by
  have hd := calculate_ok_inv budget eligible dist hcalc
  subst hd
  exact ⟨List.sorted_insertionSort entryGE _,
    fun q => insertionSort_filter_key (distribution_entries budget eligible) q⟩

/-- Witness for `distribution_sorted_descending_stable`: eligible
`{A: 1, B: 1, C: 2}` with budget 1 sorts to `[C, A, B]` — C first, the tied
pair A, B in encounter order. -/
theorem distribution_sorted_descending_stable_witness :
    List.Sorted entryGE
      ([⟨"C", 2, 50, 1/2⟩, ⟨"A", 1, 25, 1/4⟩, ⟨"B", 1, 25, 1/4⟩] : List DistributionEntry) ∧
    ∀ q : ℚ,
      ([⟨"C", 2, 50, 1/2⟩, ⟨"A", 1, 25, 1/4⟩, ⟨"B", 1, 25, 1/4⟩] :
          List DistributionEntry).filter (fun e => decide (e.token_amount = q)) =
        (distribution_entries 1 [("A", 1), ("B", 1), ("C", 2)]).filter
          (fun e => decide (e.token_amount = q)) :=
  distribution_sorted_descending_stable 1 [("A", 1), ("B", 1), ("C", 2)]
    [⟨"C", 2, 50, 1/2⟩, ⟨"A", 1, 25, 1/4⟩, ⟨"B", 1, 25, 1/4⟩]
    (by norm_num [calculate_wbtc_distribution, distribution_entries,
      List.insertionSort, List.orderedInsert, entryGE])

theorem execute_transfers_failed_ge (outcomes : ℕ → Bool) :
    ∀ (l : List DistributionEntry) (i s f : ℕ) (sent : ℚ),
      f ≤ (execute_transfers outcomes l i (s, f, sent)).2.1 := by
  intro l
  induction l with
  | nil => intro i s f sent; simp [execute_transfers]
  | cons e rest ih =>
    intro i s f sent
    by_cases h : outcomes i
    · simpa [execute_transfers, h] using ih (i + 1) (s + 1) f (sent + e.wbtc_amount)
    · have h1 := ih (i + 1) s (f + 1) sent
      have h2 : execute_transfers outcomes (e :: rest) i (s, f, sent) =
          execute_transfers outcomes rest (i + 1) (s, f + 1, sent) := by
        simp [execute_transfers, h]
      rw [h2]
      omega

theorem execute_transfers_spec (outcomes : ℕ → Bool) :
    ∀ (l : List DistributionEntry) (i s f : ℕ) (sent : ℚ),
      (∀ e ∈ l, 0 < e.wbtc_amount) →
      (execute_transfers outcomes l i (s, f, sent)).2.2 ≤
        sent + (l.map DistributionEntry.wbtc_amount).sum ∧
      ((execute_transfers outcomes l i (s, f, sent)).2.2 =
          sent + (l.map DistributionEntry.wbtc_amount).sum ↔
        (execute_transfers outcomes l i (s, f, sent)).2.1 = f) := by
  intro l
  induction l with
  | nil => intro i s f sent hpos; simp [execute_transfers]
  | cons e rest ih =>
    intro i s f sent hpos
    have hrest : ∀ x ∈ rest, 0 < x.wbtc_amount :=
      fun x hx => hpos x (List.mem_cons_of_mem e hx)
    have hepos : 0 < e.wbtc_amount := hpos e (List.mem_cons_self e rest)
    by_cases h : outcomes i
    · have hih := ih (i + 1) (s + 1) f (sent + e.wbtc_amount) hrest
      have h2 : execute_transfers outcomes (e :: rest) i (s, f, sent) =
          execute_transfers outcomes rest (i + 1) (s + 1, f, sent + e.wbtc_amount) := by
        simp [execute_transfers, h]
      rw [h2, List.map_cons, List.sum_cons]
      have hring : sent + (e.wbtc_amount + (rest.map DistributionEntry.wbtc_amount).sum) =
          sent + e.wbtc_amount + (rest.map DistributionEntry.wbtc_amount).sum := by ring
      rw [hring]
      exact hih
    · have hih := ih (i + 1) s (f + 1) sent hrest
      have hge := execute_transfers_failed_ge outcomes rest (i + 1) s (f + 1) sent
      have h2 : execute_transfers outcomes (e :: rest) i (s, f, sent) =
          execute_transfers outcomes rest (i + 1) (s, f + 1, sent) := by
        simp [execute_transfers, h]
      rw [h2, List.map_cons, List.sum_cons]
      constructor
      · linarith [hih.1]
      · constructor
        · intro heq
          exfalso
          have := hih.1
          linarith
        · intro hf
          exfalso
          omega

/-- C5: once the calculator has produced the distribution list (eligible
balances positive, positive budget), the amount actually sent is at most the
total allocated, with equality exactly when no send failed; the sent total is
the sum of `wbtc_amount` over the successful entries. -/
theorem total_sent_le_allocated (budget : ℚ) (eligible : List (String × ℚ))
    (dist : List DistributionEntry) (outcomes : ℕ → Bool)
    (hpos : ∀ p ∈ eligible, 0 < p.2) (hne : eligible ≠ []) (hb : 0 < budget)
    (hcalc : calculate_wbtc_distribution budget eligible = .ok dist) :
    (execute_transfers outcomes dist 0 (0, 0, 0)).2.2 ≤
      (dist.map DistributionEntry.wbtc_amount).sum ∧
    ((execute_transfers outcomes dist 0 (0, 0, 0)).2.2 =
        (dist.map DistributionEntry.wbtc_amount).sum ↔
      (execute_transfers outcomes dist 0 (0, 0, 0)).2.1 = 0) := by
  have hT : 0 < (eligible.map Prod.snd).sum := by
    apply List.sum_pos
    · intro x hx
      obtain ⟨p, hp, rfl⟩ := List.mem_map.mp hx
      exact hpos p hp
    · intro hmap
      exact hne (List.map_eq_nil_iff.mp hmap)
  have hd := calculate_ok_inv budget eligible dist hcalc
  have hdpos : ∀ e ∈ dist, 0 < e.wbtc_amount := by
    intro e he
    rw [hd] at he
    have he2 : e ∈ distribution_entries budget eligible :=
      (List.mem_insertionSort entryGE).mp he
    simp only [distribution_entries, List.mem_map] at he2
    obtain ⟨p, hp, rfl⟩ := he2
    exact mul_pos (div_pos (hpos p hp) hT) hb
  have := execute_transfers_spec outcomes dist 0 0 0 0 hdpos
  simpa using this

/-- Witness for `total_sent_le_allocated`: one eligible holder with balance 1,
budget 1, and a first transfer that fails. -/
theorem total_sent_le_allocated_witness :
    (execute_transfers scenario_outcomes [⟨"A", 1, 100, 1⟩] 0 (0, 0, 0)).2.2 ≤
      (([⟨"A", 1, 100, 1⟩] : List DistributionEntry).map
        DistributionEntry.wbtc_amount).sum ∧
    ((execute_transfers scenario_outcomes [⟨"A", 1, 100, 1⟩] 0 (0, 0, 0)).2.2 =
        (([⟨"A", 1, 100, 1⟩] : List DistributionEntry).map
          DistributionEntry.wbtc_amount).sum ↔
      (execute_transfers scenario_outcomes [⟨"A", 1, 100, 1⟩] 0 (0, 0, 0)).2.1 = 0) :=
  total_sent_le_allocated 1 [("A", 1)] [⟨"A", 1, 100, 1⟩] scenario_outcomes
    (by norm_num) (by simp) (by norm_num)
    (by norm_num [calculate_wbtc_distribution, distribution_entries,
      List.insertionSort, List.orderedInsert, entryGE])

theorem balanceOf_cons (p : String × ℚ) (l : List (String × ℚ)) (w : String) :
    balanceOf (p :: l) w = (if p.1 = w then p.2 else 0) + balanceOf l w := by
  by_cases h : p.1 = w <;> simp [balanceOf, List.filter_cons, h]

theorem balanceOf_dictAdd (h : List (String × ℚ)) (o : String) (a : ℚ) (w : String) :
    balanceOf (dictAdd h o a) w = balanceOf h w + if o = w then a else 0 := by
  induction h with
  | nil =>
    by_cases how : o = w <;> simp [dictAdd, balanceOf, List.filter_cons, how]
  | cons p rest ih =>
    obtain ⟨pw, pb⟩ := p
    by_cases hpo : pw = o
    · subst hpo
      simp only [dictAdd, eq_self_iff_true, if_true]
      rw [balanceOf_cons, balanceOf_cons]
      by_cases hw : pw = w
      · simp [hw]
        ring
      · simp [hw]
    · simp only [dictAdd, if_neg hpo]
      rw [balanceOf_cons, balanceOf_cons, ih]
      ring

theorem sum_dictAdd (h : List (String × ℚ)) (o : String) (a : ℚ) :
    ((dictAdd h o a).map Prod.snd).sum = (h.map Prod.snd).sum + a := by
  induction h with
  | nil => simp [dictAdd]
  | cons p rest ih =>
    obtain ⟨pw, pb⟩ := p
    by_cases hpo : pw = o
    · simp [dictAdd, hpo]
      ring
    · simp [dictAdd, hpo, ih]
      ring

theorem aggregate_balance (w : String) :
    ∀ (accs : List RawAccount) (h : List (String × ℚ)) (t : ℚ),
      balanceOf (aggregate_holders accs h t).1 w =
        balanceOf h w + (accs.map (contribution w)).sum := by
  intro accs
  induction accs with
  | nil => intro h t; simp [aggregate_holders]
  | cons r rest ih =>
    intro h t
    cases r with
    | malformed => simp [aggregate_holders, contribution, ih h t]
    | parsed o a =>
      by_cases ha : a = 0
      · subst ha
        simp [aggregate_holders, contribution, ih h t]
      · have h1 : aggregate_holders (RawAccount.parsed o a :: rest) h t =
            aggregate_holders rest (dictAdd h o a) (t + a) := by
          simp [aggregate_holders, ha]
        rw [h1, ih (dictAdd h o a) (t + a), balanceOf_dictAdd]
        simp only [List.map_cons, List.sum_cons, contribution, ha, ne_eq,
          not_false_iff, and_true]
        ring

theorem aggregate_total :
    ∀ (accs : List RawAccount) (h : List (String × ℚ)) (t : ℚ),
      (aggregate_holders accs h t).2 + (h.map Prod.snd).sum =
        ((aggregate_holders accs h t).1.map Prod.snd).sum + t := by
  intro accs
  induction accs with
  | nil => intro h t; simp [aggregate_holders, add_comm]
  | cons r rest ih =>
    intro h t
    cases r with
    | malformed => simpa [aggregate_holders] using ih h t
    | parsed o a =>
      by_cases ha : a = 0
      · simpa [aggregate_holders, ha] using ih h t
      · have h1 : aggregate_holders (RawAccount.parsed o a :: rest) h t =
            aggregate_holders rest (dictAdd h o a) (t + a) := by
          simp [aggregate_holders, ha]
        rw [h1]
        have h2 := ih (dictAdd h o a) (t + a)
        rw [sum_dictAdd] at h2
        linarith

theorem aggregate_skip (r : RawAccount) (post : List RawAccount)
    (hr : r = RawAccount.malformed ∨ ∃ o, r = RawAccount.parsed o 0) :
    ∀ (pre : List RawAccount) (h : List (String × ℚ)) (t : ℚ),
      aggregate_holders (pre ++ r :: post) h t = aggregate_holders (pre ++ post) h t := by
  intro pre
  induction pre with
  | nil =>
    intro h t
    rcases hr with h1 | ⟨o, h1⟩ <;> subst h1 <;> simp [aggregate_holders]
  | cons q pre ih =>
    intro h t
    cases q with
    | malformed => simp [aggregate_holders, ih]
    | parsed o a => by_cases ha : a = 0 <;> simp [aggregate_holders, ha, ih]

/-- C7: each aggregated wallet balance is exactly the sum of that wallet's
parsed non-zero raw amounts, the returned total supply equals the sum of all
aggregated balances, and a malformed or zero-amount record anywhere in the
input changes nothing — the scan skips it without failing. -/
theorem holder_aggregation_correct (accounts : List RawAccount) :
    (∀ w : String,
      balanceOf (get_token_holders accounts).1 w =
        (accounts.map (contribution w)).sum) ∧
    (get_token_holders accounts).2 =
      ((get_token_holders accounts).1.map Prod.snd).sum ∧
    (∀ (pre post : List RawAccount) (o : String),
      get_token_holders (pre ++ RawAccount.malformed :: post) =
        get_token_holders (pre ++ post) ∧
      get_token_holders (pre ++ RawAccount.parsed o 0 :: post) =
        get_token_holders (pre ++ post)) := by
  refine ⟨fun w => ?_, ?_, fun pre post o => ⟨?_, ?_⟩⟩
  · simpa [balanceOf] using aggregate_balance w accounts [] 0
  · simpa [get_token_holders] using aggregate_total accounts [] 0
  · exact aggregate_skip _ post (Or.inl rfl) pre [] 0
  · exact aggregate_skip _ post (Or.inr ⟨o, rfl⟩) pre [] 0

end WBTCAirdropBot
